import Mathlib

/-!
Shallow embedding of `src/lib.rs` of the rsingbuffer repository: a
fixed-capacity ring buffer (`RingBuffer`) with cursors `start` and `end`
over a growable backing vector, plus a read-only wrapper
(`RingBufferView`) offering positional lookup.

Modelling conventions:
* Rust `usize` values become `Nat`.
* The backing `Vec<A>` becomes a `List A` together with the reserved
  capacity `vcap` (`Vec::with_capacity(size)` reserves room for `size`
  elements; `self.buffer.capacity()` is modelled by `vcap`).
* Every operation that can panic in Rust (indexing out of bounds,
  `usize` subtraction underflow) returns an `Option` whose `none` value
  marks the panic; the Rust-level `Option` result sits inside it.
* `fn` arguments (`cont: fn(&A) -> B`) become plain Lean functions.
-/

/-- The `RingBuffer<A>` struct: backing vector, the two cursors, the
fixed logical capacity, and the reserved capacity of the backing
vector. -/
structure RingBuffer (A : Type) where
  buffer : List A
  start : Nat
  «end» : Nat
  capacity : Nat
  vcap : Nat
deriving DecidableEq

/-- The `RingBufferView<A>` struct: a read-only wrapper that owns the
underlying buffer. -/
structure RingBufferView (A : Type) where
  ring_buffer : RingBuffer A
deriving DecidableEq

/-- The state produced by `new(size)` once the `assert!(size > 0)` has
passed: empty backing vector with `size` slots reserved, both cursors
at 0. -/
def newRaw (A : Type) (size : Nat) : RingBuffer A :=
  { buffer := [], start := 0, «end» := 0, capacity := size, vcap := size }

/-- `new(size)`: asserts `size > 0` (modelled as `none` on violation),
then builds the fresh buffer. -/
def new (A : Type) (size : Nat) : Option (RingBuffer A) :=
  if 0 < size then some (newRaw A size) else none

/-- `freeze(ring_buffer)`: wraps the buffer into a read-only view. -/
def freeze {A : Type} (ring_buffer : RingBuffer A) : RingBufferView A :=
  { ring_buffer }

namespace RingBufferView

/-- `RingBufferView::at(idx)`: absent for `idx >= capacity`; otherwise
looks at physical slot `(start + idx) % capacity` and yields the stored
value when that slot is `< end`, absent when it is `>= end`.  The outer
`Option` marks a panic of the indexing `self.ring_buffer.buffer[idx]`
(never a division by zero: for `capacity == 0` the first guard already
returned).  Returned references are modelled by the element value. -/
def «at» {A : Type} (v : RingBufferView A) (idx : Nat) : Option (Option A) :=
  if idx ≥ v.ring_buffer.capacity then
    some none
  else
    let j := (v.ring_buffer.start + idx) % v.ring_buffer.capacity
    if j ≥ v.ring_buffer.«end» then
      some none
    else
      (v.ring_buffer.buffer[j]?).map some

/-- `RingBufferView::thaw()`: returns the underlying buffer. -/
def thaw {A : Type} (v : RingBufferView A) : RingBuffer A :=
  v.ring_buffer

end RingBufferView

namespace RingBuffer

/-- `RingBuffer::len()`: 0 at the `start == 0 && end == 0` sentinel,
`end - start` when `start <= end`, and `buffer.len() + end - start`
otherwise.  The outer `Option` marks the `usize` underflow panic of the
last formula when `start > buffer.len() + end`. -/
def len {A : Type} (s : RingBuffer A) : Option Nat :=
  if s.start = 0 ∧ s.«end» = 0 then
    some 0
  else if s.start ≤ s.«end» then
    some (s.«end» - s.start)
  else if s.start ≤ s.buffer.length + s.«end» then
    some (s.buffer.length + s.«end» - s.start)
  else
    none

/-- `RingBuffer::peek_first(cont)`: absent at the empty sentinel,
otherwise `cont` applied to `buffer[start]`.  The outer `Option` marks
the panic of that indexing. -/
def peek_first {A B : Type} (s : RingBuffer A) (cont : A → B) : Option (Option B) :=
  if s.start = 0 ∧ s.«end» = 0 then
    some none
  else
    (s.buffer[s.start]?).map (fun a => some (cont a))

/-- `RingBuffer::peek_last(cont)`: absent at the empty sentinel,
otherwise `cont` applied to `buffer[end - 1]`.  The outer `Option`
marks a panic: the `usize` underflow of `end - 1` when `end == 0`, or
the indexing going out of bounds. -/
def peek_last {A B : Type} (s : RingBuffer A) (cont : A → B) : Option (Option B) :=
  if s.start = 0 ∧ s.«end» = 0 then
    some none
  else if s.«end» = 0 then
    none
  else
    (s.buffer[s.«end» - 1]?).map (fun a => some (cont a))

/-- `RingBuffer::push(val)`: the three cases of the source, returning
`(evicted, post-state)`; the outer `Option` marks an indexing panic.
Case `start == 0`, `end >= capacity`: swap `val` into slot 0, cursors
become `(1, 1)`.  Case `start == 0`, room left: append to the backing
vector while it is below its reserved capacity, else overwrite slot
`end`; increment `end`.  Case `start == end`: swap `val` into slot
`end`, increment `end`, then `start := end` if `end < capacity` and
`start := 0` otherwise.  Remaining case: overwrite slot `end` and
increment `end`. -/
def push {A : Type} (s : RingBuffer A) (val : A) : Option (Option A × RingBuffer A) :=
  if s.start = 0 then
    if s.«end» ≥ s.capacity then
      (s.buffer[0]?).map (fun evicted =>
        (some evicted, { s with buffer := s.buffer.set 0 val, start := 1, «end» := 1 }))
    else
      if s.buffer.length < s.vcap then
        some (none, { s with buffer := s.buffer ++ [val], «end» := s.«end» + 1 })
      else if s.«end» < s.buffer.length then
        some (none, { s with buffer := s.buffer.set s.«end» val, «end» := s.«end» + 1 })
      else
        none
  else if s.start = s.«end» then
    (s.buffer[s.«end»]?).map (fun evicted =>
      (some evicted,
        { s with
          buffer := s.buffer.set s.«end» val,
          «end» := s.«end» + 1,
          start := if s.«end» + 1 < s.capacity then s.«end» + 1 else 0 }))
  else
    if s.«end» < s.buffer.length then
      some (none, { s with buffer := s.buffer.set s.«end» val, «end» := s.«end» + 1 })
    else
      none

end RingBuffer

/-- Runs a sequence of pushes, collecting the returned values; `none`
as soon as one push panics. -/
def runPush {A : Type} : RingBuffer A → List A → Option (List (Option A) × RingBuffer A)
  | s, [] => some ([], s)
  | s, v :: vs =>
    (s.push v).bind (fun p => (runPush p.2 vs).map (fun q => (p.1 :: q.1, q.2)))

/-- The live contents of a buffer, oldest first: the elements from
`start` to the right, then those before `start` (the wrapped part).
On every state the code can reach this lists the stored values in
age order. -/
def liveList {A : Type} (s : RingBuffer A) : List A :=
  s.buffer.drop s.start ++ s.buffer.take s.start

/-- The pair `(peek_first id, peek_last id)` of a buffer over `Nat`,
`none` when either peek panics. -/
def peekPair (s : RingBuffer Nat) : Option (Option Nat × Option Nat) :=
  (s.peek_first id).bind (fun a => (s.peek_last id).map (fun b => (a, b)))

/-- The peek pair observed after pushing `vs` into a fresh buffer of
capacity `cap`. -/
def peekPairAfter (cap : Nat) (vs : List Nat) : Option (Option Nat × Option Nat) :=
  (runPush (newRaw Nat cap) vs).bind (fun p => peekPair p.2)

/-- States reachable from a freshly constructed buffer of capacity
`cap` by successful pushes (`freeze`, `thaw`, `len`, the peeks and
`at` do not mutate the buffer). -/
inductive Reachable {A : Type} (cap : Nat) : RingBuffer A → Prop where
  | base : 0 < cap → Reachable cap (newRaw A cap)
  | step {s : RingBuffer A} {v : A} {r : Option A} {s' : RingBuffer A} :
      Reachable cap s → s.push v = some (r, s') → Reachable cap s'

/-- Invariant of every reachable state of capacity `cap`: either the
unwrapped regime (`start = 0`, backing vector filled exactly up to
`end ≤ cap`) or the wrapped-full regime (`start = end ≥ 1`, backing
vector of length `cap`; `end < cap` except in the degenerate capacity-1
case where `end = 1`). -/
def BufInv {A : Type} (cap : Nat) (s : RingBuffer A) : Prop :=
  0 < cap ∧ s.capacity = cap ∧ cap ≤ s.vcap ∧
    ((s.start = 0 ∧ s.«end» ≤ cap ∧ s.buffer.length = s.«end») ∨
     (1 ≤ s.start ∧ s.start = s.«end» ∧ s.«end» < max cap 2 ∧ s.buffer.length = cap))

/-- A fresh buffer satisfies the reachability invariant. -/
theorem bufInv_newRaw {A : Type} {cap : Nat} (h : 0 < cap) : BufInv cap (newRaw A cap) :=
  ⟨h, rfl, Nat.le_refl _, Or.inl ⟨rfl, Nat.zero_le _, rfl⟩⟩

/-- Every state produced by a successful `push` has `end ≥ 1`: each of
the three cases sets `end` to 1 or increments it. -/
theorem push_end_pos {A : Type} {s : RingBuffer A} {v : A} {r : Option A}
    {s' : RingBuffer A} (h : s.push v = some (r, s')) : 1 ≤ s'.«end» := by
  rw [RingBuffer.push] at h
  split_ifs at h <;>
    first
      | (obtain ⟨a, ha, hpair⟩ := Option.map_eq_some'.mp h
         have hs' := congrArg Prod.snd hpair
         simp only at hs'
         subst hs'
         first
           | exact Nat.le_refl _
           | exact Nat.le_add_left 1 _)
      | (simp only [Option.some.injEq, Prod.mk.injEq] at h
         obtain ⟨hr, hs'⟩ := h
         subst hs'
         exact Nat.le_add_left 1 _)

/-- A successful `push` preserves the reachability invariant. -/
theorem push_inv {A : Type} {cap : Nat} {s : RingBuffer A} {v : A} {r : Option A}
    {s' : RingBuffer A} (hInv : BufInv cap s) (h : s.push v = some (r, s')) :
    BufInv cap s' := by
  obtain ⟨hcap, hc, hv, hd⟩ := hInv
  rw [RingBuffer.push] at h
  rcases hd with ⟨h0, h1, h2⟩ | ⟨h0, h1, h2, h3⟩
  · rw [if_pos h0] at h
    by_cases hfull : s.«end» ≥ s.capacity
    · rw [if_pos hfull] at h
      obtain ⟨a, ha, hpair⟩ := Option.map_eq_some'.mp h
      have hs' := congrArg Prod.snd hpair
      simp only at hs'
      subst hs'
      refine ⟨hcap, hc, hv, Or.inr ⟨Nat.le_refl 1, rfl, ?_, ?_⟩⟩
      · show (1 : Nat) < max cap 2
        omega
      · show (s.buffer.set 0 v).length = cap
        rw [List.length_set]
        omega
    · rw [if_neg hfull, if_pos (by omega : s.buffer.length < s.vcap)] at h
      simp only [Option.some.injEq, Prod.mk.injEq] at h
      obtain ⟨hr, hs'⟩ := h
      subst hs'
      refine ⟨hcap, hc, hv, Or.inl ⟨h0, ?_, ?_⟩⟩
      · show s.«end» + 1 ≤ cap
        omega
      · show (s.buffer ++ [v]).length = s.«end» + 1
        simp only [List.length_append, List.length_cons, List.length_nil]
        omega
  · rw [if_neg (by omega : ¬ s.start = 0), if_pos h1] at h
    obtain ⟨a, ha, hpair⟩ := Option.map_eq_some'.mp h
    have hs' := congrArg Prod.snd hpair
    simp only at hs'
    subst hs'
    have hlt : s.«end» < s.buffer.length := (List.getElem?_eq_some.mp ha).1
    by_cases hwrap : s.«end» + 1 < s.capacity
    · refine ⟨hcap, hc, hv, Or.inr ⟨?_, ?_, ?_, ?_⟩⟩
      · show (1 : Nat) ≤ if s.«end» + 1 < s.capacity then s.«end» + 1 else 0
        rw [if_pos hwrap]
        omega
      · show (if s.«end» + 1 < s.capacity then s.«end» + 1 else 0) = s.«end» + 1
        rw [if_pos hwrap]
      · show s.«end» + 1 < max cap 2
        omega
      · show (s.buffer.set s.«end» v).length = cap
        rw [List.length_set]
        exact h3
    · refine ⟨hcap, hc, hv, Or.inl ⟨?_, ?_, ?_⟩⟩
      · show (if s.«end» + 1 < s.capacity then s.«end» + 1 else 0) = 0
        rw [if_neg hwrap]
      · show s.«end» + 1 ≤ cap
        omega
      · show (s.buffer.set s.«end» v).length = s.«end» + 1
        rw [List.length_set]
        omega

/-- Every reachable state satisfies the invariant `BufInv`. -/
theorem reachable_bufInv {A : Type} {cap : Nat} {s : RingBuffer A}
    (h : Reachable cap s) : BufInv cap s := by
  induction h with
  | base hcap => exact bufInv_newRaw hcap
  | step hr hp ih => exact push_inv ih hp

/-- A successful run of pushes keeps `end ≥ 1`, and establishes it as
soon as the sequence is non-empty. -/
theorem runPush_end_pos {A : Type} {vs : List A} :
    ∀ {s rs : _} {s' : RingBuffer A}, runPush s vs = some (rs, s') →
      (1 ≤ s.«end» → 1 ≤ s'.«end») ∧ (vs ≠ [] → 1 ≤ s'.«end») := by
  induction vs with
  | nil =>
    intro s rs s' h
    rw [runPush] at h
    simp only [Option.some.injEq, Prod.mk.injEq] at h
    obtain ⟨-, h2⟩ := h
    subst h2
    exact ⟨fun hh => hh, fun hne => absurd rfl hne⟩
  | cons v vs ih =>
    intro s rs s' h
    rw [runPush] at h
    cases hp : s.push v with
    | none =>
      rw [hp] at h
      exact Option.noConfusion h
    | some p =>
      rw [hp, Option.some_bind] at h
      cases hq : runPush p.2 vs with
      | none =>
        rw [hq] at h
        exact Option.noConfusion h
      | some q =>
        rw [hq, Option.map_some'] at h
        simp only [Option.some.injEq, Prod.mk.injEq] at h
        obtain ⟨-, h2⟩ := h
        subst h2
        have h1 : 1 ≤ p.2.«end» := push_end_pos hp
        have h3 := (ih hq).1 h1
        exact ⟨fun _ => h3, fun _ => h3⟩

/-- C1: the eviction contract holds in the concrete capacity-3 scenario
(pushing 3,4,5 then 6 evicts `Some 3`, then 7 evicts `Some 4`), but the
universally quantified claim fails: with capacity 1, after pushing 1
and 2 the buffer is in the reachable state `(start, end) = (1, 1)` and
holds exactly `C = 1` live element (the live list is `[2]`), yet
`push 3` indexes `buffer[1]` on a length-1 storage and panics (modelled
as `none`) instead of returning the evicted oldest element `Some 2`. -/
theorem push_cap_one_eviction_panic :
    (runPush (newRaw Nat 3) [3, 4, 5, 6, 7]).map Prod.fst =
      some [none, none, none, some 3, some 4] ∧
    runPush (newRaw Nat 1) [1, 2] = some ([none, some 1], ⟨[2], 1, 1, 1, 1⟩) ∧
    liveList (⟨[2], 1, 1, 1, 1⟩ : RingBuffer Nat) = [2] ∧
    (⟨[2], 1, 1, 1, 1⟩ : RingBuffer Nat).capacity = 1 ∧
    RingBuffer.push (⟨[2], 1, 1, 1, 1⟩ : RingBuffer Nat) 3 = none := by
  decide

/-- C2: after pushing 3,4,5,6,7 into a capacity-3 buffer (two
evictions, live contents `[5, 6, 7]` oldest first) and freezing, the
code returns `at(0) = None` (the slot `(2 + 0) % 3 = 2` is rejected by
the `idx >= end` guard) instead of the claimed `at(0) = Some 5`; the
repository's own test `ringbuffer_freeze_and_thaw_overwrites_when_pushing_enough`
expects `Some(5)` here.  (`at(1)` and `at(2)` do return 6 and 7, and
`at(3)` is absent.) -/
theorem at_after_wrap_loses_oldest :
    runPush (newRaw Nat 3) [3, 4, 5, 6, 7] =
      some ([none, none, none, some 3, some 4], ⟨[6, 7, 5], 2, 2, 3, 3⟩) ∧
    liveList (⟨[6, 7, 5], 2, 2, 3, 3⟩ : RingBuffer Nat) = [5, 6, 7] ∧
    (freeze (⟨[6, 7, 5], 2, 2, 3, 3⟩ : RingBuffer Nat)).«at» 0 = some none ∧
    (freeze (⟨[6, 7, 5], 2, 2, 3, 3⟩ : RingBuffer Nat)).«at» 1 = some (some 6) ∧
    (freeze (⟨[6, 7, 5], 2, 2, 3, 3⟩ : RingBuffer Nat)).«at» 2 = some (some 7) ∧
    (freeze (⟨[6, 7, 5], 2, 2, 3, 3⟩ : RingBuffer Nat)).«at» 3 = some none := by
  decide

/-- C3: after pushing 3,4,5,6 into a capacity-3 buffer (n = 4 ≥ C = 3)
the reachable state is `(start, end) = (1, 1)` with live contents
`[4, 5, 6]` (three live elements), yet `len()` takes its
`start <= end` branch and returns `1 - 1 = 0` instead of the claimed
`C = 3`. -/
theorem len_zero_in_full_wrapped_state :
    runPush (newRaw Nat 3) [3, 4, 5, 6] =
      some ([none, none, none, some 3], ⟨[6, 4, 5], 1, 1, 3, 3⟩) ∧
    liveList (⟨[6, 4, 5], 1, 1, 3, 3⟩ : RingBuffer Nat) = [4, 5, 6] ∧
    RingBuffer.len (⟨[6, 4, 5], 1, 1, 3, 3⟩ : RingBuffer Nat) = some 0 := by
  decide

/-- C4: totality fails for capacity 1.  Pushing 1 then 2 succeeds and
reaches the state `(start, end) = (1, 1)` with a length-1 storage;
there the third `push` indexes `buffer[1]` and panics (the whole run
of pushes 1,2,3 is `none`), and `peek_first` indexes `buffer[start]` =
`buffer[1]` and panics as well, instead of returning an explicit
absent/present result. -/
theorem cap_one_operations_panic :
    runPush (newRaw Nat 1) [1, 2] = some ([none, some 1], ⟨[2], 1, 1, 1, 1⟩) ∧
    RingBuffer.push (⟨[2], 1, 1, 1, 1⟩ : RingBuffer Nat) 3 = none ∧
    RingBuffer.peek_first (⟨[2], 1, 1, 1, 1⟩ : RingBuffer Nat) id = none ∧
    runPush (newRaw Nat 1) [1, 2, 3] = none := by
  decide

/-- C5 counterexample: the reachable capacity-3 state
`(start, end) = (2, 2)` (after pushing 3,4,5,6,7) satisfies the claim's
premises — `start == end` and the incremented `end` reaches the
capacity — but `push 8` leaves `end = 3 ≠ 0` and instead resets
`start = 0`: the claimed post-state `end == 0` is refuted. -/
theorem push_wrap_post_end_not_zero :
    runPush (newRaw Nat 3) [3, 4, 5, 6, 7] =
      some ([none, none, none, some 3, some 4], ⟨[6, 7, 5], 2, 2, 3, 3⟩) ∧
    (⟨[6, 7, 5], 2, 2, 3, 3⟩ : RingBuffer Nat).start =
      (⟨[6, 7, 5], 2, 2, 3, 3⟩ : RingBuffer Nat).«end» ∧
    (⟨[6, 7, 5], 2, 2, 3, 3⟩ : RingBuffer Nat).«end» + 1 =
      (⟨[6, 7, 5], 2, 2, 3, 3⟩ : RingBuffer Nat).capacity ∧
    RingBuffer.push (⟨[6, 7, 5], 2, 2, 3, 3⟩ : RingBuffer Nat) 8 =
      some (some 5, ⟨[6, 7, 8], 0, 3, 3, 3⟩) ∧
    ¬(⟨[6, 7, 8], 0, 3, 3, 3⟩ : RingBuffer Nat).«end» = 0 ∧
    (⟨[6, 7, 8], 0, 3, 3, 3⟩ : RingBuffer Nat).start = 0 := by
  decide

/-- C5 (amended): when `push` runs with `start == end` (and the swap
target `end` is inside the storage, so no panic), the eviction
succeeds and `end` becomes `end + 1`; if that incremented `end` is
still below the capacity both cursors advance together
(`start == end` afterwards), and otherwise — in particular when the
incremented `end` reaches the capacity — the code resets `start = 0`
and leaves `end` at `capacity`, re-entering the unwrapped-full
representation (it does not reset `end` to 0). -/
theorem push_full_wrapped_cursor_update {A : Type} {s : RingBuffer A} (v : A)
    (h0 : s.start ≠ 0) (h1 : s.start = s.«end») (h2 : s.«end» < s.buffer.length) :
    ∃ ev s', s.push v = some (some ev, s') ∧ s'.«end» = s.«end» + 1 ∧
      (s.«end» + 1 < s.capacity → s'.start = s'.«end») ∧
      (¬ s.«end» + 1 < s.capacity → s'.start = 0) := by
  rw [RingBuffer.push, if_neg h0, if_pos h1]
  have ha : s.buffer[s.«end»]? = some (s.buffer.get ⟨s.«end», h2⟩) :=
    List.getElem?_eq_getElem h2
  rw [ha, Option.map_some']
  refine ⟨s.buffer.get ⟨s.«end», h2⟩, _, rfl, rfl, ?_, ?_⟩
  · intro hlt
    show (if s.«end» + 1 < s.capacity then s.«end» + 1 else 0) = s.«end» + 1
    rw [if_pos hlt]
  · intro hge
    show (if s.«end» + 1 < s.capacity then s.«end» + 1 else 0) = 0
    rw [if_neg hge]

/-- C5 witness: the amended cursor update applied to the concrete
reachable capacity-3 state `(start, end) = (1, 1)` with storage
`[6, 4, 5]`. -/
theorem push_full_wrapped_cursor_update_applied :
    ∃ ev s', RingBuffer.push (⟨[6, 4, 5], 1, 1, 3, 3⟩ : RingBuffer Nat) 7 =
        some (some ev, s') ∧ s'.«end» = 1 + 1 ∧
      (1 + 1 < 3 → s'.start = s'.«end») ∧ (¬ 1 + 1 < 3 → s'.start = 0) :=
  push_full_wrapped_cursor_update 7 (by decide) (by decide) (by decide)

/-- C6: the claimed step-by-step `peek_first`/`peek_last` pairs for
pushing 3,4,5,6,7,8,9 into a capacity-3 buffer do hold, and both peeks
are absent on a fresh buffer; but the universally quantified claim
fails: with capacity 1, after pushing 1 and 2 the buffer is in the
reachable non-empty state `(start, end) = (1, 1)` with live contents
`[2]`, and `peek_first` indexes `buffer[start]` = `buffer[1]` on a
length-1 storage and panics (modelled as `none`) instead of projecting
the oldest live element 2 (`peek_last` still answers `Some 2`). -/
theorem peek_pairs_and_cap_one_panic :
    (List.range 7).map (fun k => peekPairAfter 3 ([3, 4, 5, 6, 7, 8, 9].take (k + 1))) =
      [some (some 3, some 3), some (some 3, some 4), some (some 3, some 5),
       some (some 4, some 6), some (some 5, some 7), some (some 6, some 8),
       some (some 7, some 9)] ∧
    RingBuffer.peek_first (newRaw Nat 3) id = some none ∧
    RingBuffer.peek_last (newRaw Nat 3) id = some none ∧
    runPush (newRaw Nat 1) [1, 2] = some ([none, some 1], ⟨[2], 1, 1, 1, 1⟩) ∧
    liveList (⟨[2], 1, 1, 1, 1⟩ : RingBuffer Nat) = [2] ∧
    RingBuffer.peek_first (⟨[2], 1, 1, 1, 1⟩ : RingBuffer Nat) id = none ∧
    RingBuffer.peek_last (⟨[2], 1, 1, 1, 1⟩ : RingBuffer Nat) id = some (some 2) := by
  decide

/-- C7: in every reachable state `start ≤ end`, so the wrapped branch
of `len()` (`start > end`) is dead code and the claimed equality holds
(vacuously) on reachable states, storage length included; moreover on
any state whose storage has grown to exactly `capacity` slots with
`start > end` and `start ≤ capacity`, the code's formula
`buffer.len() + end - start` does equal the spec's
`capacity - start + end`. -/
theorem len_wrapped_formula_agrees {A : Type} {cap : Nat} {s : RingBuffer A}
    (hs : Reachable cap s) :
    s.start ≤ s.«end» ∧
    (s.«end» < s.start →
      s.buffer.length = s.capacity ∧ s.len = some (s.capacity - s.start + s.«end»)) ∧
    (∀ t : RingBuffer A, t.buffer.length = t.capacity → t.«end» < t.start →
      t.start ≤ t.capacity → t.len = some (t.capacity - t.start + t.«end»)) := by
  obtain ⟨hcap, hc, hv, hd⟩ := reachable_bufInv hs
  have hle : s.start ≤ s.«end» := by
    rcases hd with ⟨h0, h1, h2⟩ | ⟨h0, h1, h2, h3⟩ <;> omega
  refine ⟨hle, fun hlt => absurd hlt (by omega), fun t h1 h2 h3 => ?_⟩
  rw [RingBuffer.len, if_neg (by omega : ¬(t.start = 0 ∧ t.«end» = 0)),
    if_neg (by omega : ¬ t.start ≤ t.«end»),
    if_pos (by omega : t.start ≤ t.buffer.length + t.«end»)]
  exact congrArg some (by omega)

/-- C7 witness: the theorem applied to the concrete reachable state
after pushing 3 into a fresh capacity-3 buffer. -/
theorem len_wrapped_formula_agrees_applied :
    (⟨[3], 0, 1, 3, 3⟩ : RingBuffer Nat).start ≤ (⟨[3], 0, 1, 3, 3⟩ : RingBuffer Nat).«end» :=
  (len_wrapped_formula_agrees
    (Reachable.step (Reachable.base (by decide))
      (by decide : RingBuffer.push (newRaw Nat 3) 3 = some (none, ⟨[3], 0, 1, 3, 3⟩)))).1

/-- C8: thawing a frozen buffer gives back the very same buffer, hence
the same `len()`, the same capacity, and the same value at every
logical position of a fresh frozen view. -/
theorem thaw_freeze_roundtrip {A : Type} (buf : RingBuffer A) :
    (freeze buf).thaw = buf ∧
    ((freeze buf).thaw).len = buf.len ∧
    ((freeze buf).thaw).capacity = buf.capacity ∧
    (∀ idx : Nat, (freeze ((freeze buf).thaw)).«at» idx = (freeze buf).«at» idx) :=
  ⟨rfl, rfl, rfl, fun _ => rfl⟩

/-- C9: a non-empty sequence of successful pushes into a fresh buffer
of positive capacity never ends in the empty sentinel
`start == 0 && end == 0`: the final push always leaves `end ≥ 1`. -/
theorem push_never_reenters_empty_sentinel {A : Type} {cap : Nat} {vs : List A}
    {rs : List (Option A)} {s' : RingBuffer A} (_hcap : 0 < cap) (hvs : vs ≠ [])
    (h : runPush (newRaw A cap) vs = some (rs, s')) :
    ¬(s'.start = 0 ∧ s'.«end» = 0) := by
  have h1 := (runPush_end_pos h).2 hvs
  omega

/-- C9 witness: pushing the single value 5 into a fresh capacity-3
buffer leaves the cursors at `(0, 1)`, not the sentinel. -/
theorem push_never_reenters_empty_sentinel_applied :
    ¬((⟨[5], 0, 1, 3, 3⟩ : RingBuffer Nat).start = 0 ∧
      (⟨[5], 0, 1, 3, 3⟩ : RingBuffer Nat).«end» = 0) :=
  push_never_reenters_empty_sentinel (by decide) (by decide)
    (by decide : runPush (newRaw Nat 3) [5] = some ([none], ⟨[5], 0, 1, 3, 3⟩))

/-- C10: in every reachable state, `end = 0` forces `start = 0` (the
initial empty state is the only one with `end = 0`), and every
reachable state off the empty sentinel has `end ≥ 1`, so the
`end - 1` computed by `peek_last` never underflows. -/
theorem end_zero_only_in_initial_state {A : Type} {cap : Nat} {s : RingBuffer A}
    (hs : Reachable cap s) :
    (s.«end» = 0 → s.start = 0) ∧
    (¬(s.start = 0 ∧ s.«end» = 0) → 1 ≤ s.«end») := by
  obtain ⟨-, hc, hv, hd⟩ := reachable_bufInv hs
  rcases hd with ⟨h0, h1, h2⟩ | ⟨h0, h1, h2, h3⟩ <;> exact ⟨by omega, by omega⟩

/-- C10 witness: the theorem applied to the freshly constructed
capacity-2 buffer. -/
theorem end_zero_only_in_initial_state_applied :
    ((newRaw Nat 2).«end» = 0 → (newRaw Nat 2).start = 0) ∧
    (¬((newRaw Nat 2).start = 0 ∧ (newRaw Nat 2).«end» = 0) → 1 ≤ (newRaw Nat 2).«end») :=
  end_zero_only_in_initial_state (Reachable.base (by decide))
